import Mathlib

/-!
Verification of the polymer-bundler core against its specification.

The definitions below are a shallow embedding of `src/lib/bundler.js` (class
`Bundler`) and, where a module is referenced but its source is not part of the
repository snapshot (bundle-manifest, deps-index, import-utils, matchers,
url-utils), of the behavior the specification assigns to that module.  Such
definitions carry a doc comment starting with `Modelled from the spec:`.

JavaScript `Set<string>` values are embedded as `List String` (insertion
ordered); deletion during iteration of a JS set visits exactly the surviving
elements, which a `filter` reproduces.
-/

namespace PolymerBundler

/-- Embedding of JavaScript String.prototype.startsWith, computed over the
character list of the string. -/
def strStartsWith (s t : String) : Bool := t.data.isPrefixOf s.data

/-- Embedding of JavaScript String.prototype.endsWith, computed over the
character list of the string. -/
def strEndsWith (s t : String) : Bool := t.data.isSuffixOf s.data

/-- A bundle as held in a manifest: the set of member source files and the set
of import URLs whose link elements must be stripped from the output
(`Bundle` of the bundle-manifest module, as used by bundler.js). -/
structure Bundle where
  files : List String
  stripImports : List String
deriving DecidableEq, Repr

/-- The pairing of an output URL with its Bundle that `bundle()` builds for
each manifest entry (`{ url: bundleUrl, bundle: bundleEntry[1] }`,
bundler.js line 86). -/
structure DocBundle where
  url : String
  bundle : Bundle
deriving DecidableEq, Repr

/-! ## Exclusion filter (`_filterExcludesFromBundles`, bundler.js lines 212-233) -/

/-- The directory-prefix form of an exclude entry: bundler.js line 217,
`exclude.endsWith('/') ? exclude : exclude + '/'`. -/
def excludeAsFolder (exclude : String) : String :=
  if strEndsWith exclude "/" then exclude else exclude ++ "/"

/-- One pass of the outer loop body of `_filterExcludesFromBundles`
(bundler.js lines 215-223): delete the exact exclude from the file set, then
delete every file that starts with the exclude's folder form. -/
def removeOneExclude (files : List String) (exclude : String) : List String :=
  (files.filter (fun f => f != exclude)).filter
    (fun f => !(strStartsWith f (excludeAsFolder exclude)))

/-- The file-removal phase of `_filterExcludesFromBundles` applied to one
bundle's file set (bundler.js lines 214-224): the loop over `this.excludes`. -/
def removeExcludedFiles (excludes : List String) (files : List String) : List String :=
  excludes.foldl removeOneExclude files

/-- The empty-bundle-pruning phase of `_filterExcludesFromBundles`
(bundler.js lines 225-232): the `while` loop splices out `bundles[b]` exactly
when `bundles[b].files.size < 0`, a condition embedded here verbatim. -/
def dropEmptyBundles (bundles : List Bundle) : List Bundle :=
  bundles.filter (fun b => !decide (b.files.length < 0))

/-- `_filterExcludesFromBundles` (bundler.js lines 212-233): remove excluded
files from every bundle, then run the pruning loop. -/
def filterExcludesFromBundles (excludes : List String) (bundles : List Bundle) :
    List Bundle :=
  dropEmptyBundles
    (bundles.map (fun b => { b with files := removeExcludedFiles excludes b.files }))

/-! ## Bundler constructor (bundler.js lines 44-72) and the `_bundleDocument`
pipeline gates (bundler.js lines 155-186) -/

/-- A provisional bundle of the partitioner: the owner signature (the set of
entrypoints whose closures contain its files) together with the grouped
files (`Bundle` of bundle-manifest before URL assignment, spec section 4.3). -/
structure ProvBundle where
  entrypoints : List String
  files : List String
deriving DecidableEq, Repr

/-- Modelled from the spec: `generateSharedDepsMergeStrategy` is defined in
the bundle-manifest module, which is not part of the source snapshot.  Spec
section 4.3 step 2: "The default strategy merges every bundle whose owner
signature has more than one entrypoint into a single shared bundle". -/
def sharedDepsMergeStrategy (bundles : List ProvBundle) : List ProvBundle :=
  let shared := bundles.filter (fun b => decide (1 < b.entrypoints.length))
  let single := bundles.filter (fun b => !decide (1 < b.entrypoints.length))
  if shared.isEmpty then bundles
  else
    single ++ [⟨((shared.map ProvBundle.entrypoints).flatten).dedup,
               ((shared.map ProvBundle.files).flatten).dedup⟩]

/-- Modelled from the spec: `generateCountingSharedBundleUrlMapper` is defined
in the bundle-manifest module, which is not part of the source snapshot.
Spec section 4.3 step 3: in-place URLs for bundles whose owner signature is a
single entrypoint, and "incrementing synthetic names (a fixed prefix plus a
counter)" for shared bundles.  This is the per-bundle step of that fold. -/
def countingMapperStep (pre : String) (acc : Nat × List (String × ProvBundle))
    (b : ProvBundle) : Nat × List (String × ProvBundle) :=
  match b.entrypoints with
  | [e] => (acc.1, acc.2 ++ [(e, b)])
  | _ => (acc.1 + 1, acc.2 ++ [(pre ++ toString acc.1, b)])

/-- Modelled from the spec: the URL assignment itself — a counter starting at
1, single-entrypoint bundles keeping their entrypoint's URL, shared bundles
receiving the prefix plus the counter value, in first-encountered order. -/
def countingSharedBundleUrlMapper (pre : String) (bundles : List ProvBundle) :
    List (String × ProvBundle) :=
  (bundles.foldl (countingMapperStep pre) (1, [])).2

/-- The value a caller may supply for the `excludes` option: JavaScript admits
`undefined`, an array, or any other value (bundler.js line 59 tests
`Array.isArray`). -/
inductive ExcludesOpt
  | undefinedV
  | arrayV (urls : List String)
  | otherV
deriving DecidableEq, Repr

/-- `Array.isArray(opts.excludes) ? opts.excludes : []` (bundler.js line 59). -/
def excludesOf : ExcludesOpt → List String
  | .arrayV urls => urls
  | _ => []

/-- The options object accepted by the Bundler constructor (bundler.js lines
44-72 and the Options declaration); absent fields are `none`. -/
structure Options where
  excludes : ExcludesOpt := .undefinedV
  inlineCss : Option Bool := none
  inlineScripts : Option Bool := none
  stripComments : Option Bool := none
  rewriteUrlsInTemplates : Option Bool := none
  skipUnresolvedImports : Option Bool := none
  sourcemaps : Option Bool := none
  strategy : Option (List ProvBundle → List ProvBundle) := none
  urlMapper : Option (List ProvBundle → List (String × ProvBundle)) := none

/-- The configuration state a constructed Bundler holds (bundler.js lines
59-71; the analyzer plumbing of lines 49-58 is external). -/
structure BundlerConfig where
  excludes : List String
  stripComments : Bool
  enableCssInlining : Bool
  enableScriptInlining : Bool
  rewriteUrlsInTemplates : Bool
  skipUnresolvedImports : Bool
  sourcemaps : Bool
  strategy : List ProvBundle → List ProvBundle
  urlMapper : List (ProvBundle) → List (String × ProvBundle)

/-- The Bundler constructor (bundler.js lines 44-72): `options ? options : {}`,
`Boolean(...)` coercions for flags, `=== undefined ? true : ...` for the two
inlining switches, `|| default` for strategy and urlMapper. -/
def mkBundler (options : Option Options) : BundlerConfig :=
  let opts := options.getD {}
  { excludes := excludesOf opts.excludes
    stripComments := opts.stripComments.getD false
    enableCssInlining := opts.inlineCss.getD true
    enableScriptInlining := opts.inlineScripts.getD true
    rewriteUrlsInTemplates := opts.rewriteUrlsInTemplates.getD false
    skipUnresolvedImports := opts.skipUnresolvedImports.getD false
    sourcemaps := opts.sourcemaps.getD false
    strategy := opts.strategy.getD sharedDepsMergeStrategy
    urlMapper := opts.urlMapper.getD (countingSharedBundleUrlMapper "shared_bundle_") }

/-- The pipeline stages of `_bundleDocument` in execution order. -/
inductive BundleStep
  | injectHtmlImports
  | rewriteBaseTag
  | inlineHtmlImportsStep
  | inlineScriptsStep
  | inlineStylesheetLinksStep
  | inlineStylesheetImportsStep
  | stripCommentsStep
  | removeEmptyHiddenDivsStep
  | updateSourcemapLocationsStep
deriving DecidableEq, Repr

/-- The sequence of stages `_bundleDocument` executes for a given
configuration (bundler.js lines 155-186): import injection and import
inlining always run; script inlining runs iff `enableScriptInlining`;
the two stylesheet stages run iff `enableCssInlining`; comment stripping and
sourcemap updating are gated by their flags. -/
def bundleDocumentSteps (b : BundlerConfig) : List BundleStep :=
  [.injectHtmlImports, .rewriteBaseTag, .inlineHtmlImportsStep]
  ++ (if b.enableScriptInlining then [.inlineScriptsStep] else [])
  ++ (if b.enableCssInlining then
        [.inlineStylesheetLinksStep, .inlineStylesheetImportsStep] else [])
  ++ (if b.stripComments then [.stripCommentsStep] else [])
  ++ [.removeEmptyHiddenDivsStep]
  ++ (if b.sourcemaps then [.updateSourcemapLocationsStep] else [])

/-! ## Import inlining (`_inlineHtmlImports`, bundler.js lines 310-318) -/

/-- A node of the flattened output tree during import inlining: an html
link for an import, the inlined subtree of a target document (opaque, tagged
by the URL it was inlined from), or unrelated content. -/
inductive INode
  | importLink (href : String)
  | content (src : String)
  | otherNode (tag : Nat)
deriving DecidableEq, Repr

/-- Modelled from the spec: `importUtils.inlineHtmlImport` (the import-utils
module is not part of the source snapshot).  Spec section 4.4 step 5: the
first link for a target URL is replaced by the target's inlined subtree and
the URL is recorded in the strip set; a link whose target is already in the
strip set (a re-encountered URL, or a member of the bundle's `stripImports`)
is removed with no replacement content.  This function is the sequential
processing of the links that `_inlineHtmlImports` (bundler.js lines 310-318)
collects with `queryAll`, threading the strip set through the calls. -/
def inlineHtmlImportsGo (stripSet : List String) : List INode → List INode
  | [] => []
  | INode.importLink href :: rest =>
      if href ∈ stripSet then inlineHtmlImportsGo stripSet rest
      else INode.content href :: inlineHtmlImportsGo (stripSet ++ [href]) rest
  | INode.content src :: rest => INode.content src :: inlineHtmlImportsGo stripSet rest
  | INode.otherNode t :: rest => INode.otherNode t :: inlineHtmlImportsGo stripSet rest

/-- `_inlineHtmlImports` (bundler.js lines 310-318): seed the strip set from
the bundle's `stripImports` (`new Set(bundle.bundle.stripImports)`) and
process every import link of the tree in document order. -/
def inlineHtmlImports (bundle : Bundle) (ast : List INode) : List INode :=
  inlineHtmlImportsGo bundle.stripImports ast

/-- Number of inlined-content nodes for a given source URL in a tree. -/
def countContent (u : String) : List INode → Nat
  | [] => 0
  | INode.content src :: rest => (if src = u then 1 else 0) + countContent u rest
  | _ :: rest => countContent u rest

/-! ## Dependency index builder (deps-index module; spec section 4.1, tests in
src/unnamed/part_000) -/

/-- Modelled from the spec: the analyzer's view of the import graph consumed
by `buildDepsIndex` (the deps-index module is not part of the source
snapshot; only its test file is).  Each document URL has a list of
eager-import targets and a list of lazy-import targets. -/
structure DocGraph where
  eagerImports : String → List String
  lazyImports : String → List String

/-- Modelled from the spec (section 4.1): the transitive eager walk for one
entrypoint — a work list, a visited set serving both as the reprocessing
guard (cycle detection) and as the collected closure, and fuel bounding the
iteration count. -/
def eagerClosure (g : DocGraph) : Nat → List String → List String → List String
  | 0, _, visited => visited
  | _ + 1, [], visited => visited
  | fuel + 1, u :: rest, visited =>
      if u ∈ visited then eagerClosure g fuel rest visited
      else eagerClosure g fuel (rest ++ g.eagerImports u) (visited ++ [u])

/-- Modelled from the spec (section 4.1): an entrypoint's closure — "every
reached URL plus the entrypoint itself"; the walk follows eager imports only
and never a lazy target. -/
def depsOf (g : DocGraph) (fuel : Nat) (e : String) : List String :=
  eagerClosure g fuel (g.eagerImports e) [e]

/-- Modelled from the spec (section 4.1): the outer loop of the builder —
process each pending entrypoint at most once (gated by the keys already in
the index), record its closure, and enqueue every lazy target of a document
in that closure as a brand-new entrypoint. -/
def buildIndexLoop (g : DocGraph) (fuelC : Nat) :
    Nat → List String → List (String × List String) → List (String × List String)
  | 0, _, acc => acc
  | _ + 1, [], acc => acc
  | fuel + 1, e :: queue, acc =>
      if e ∈ acc.map Prod.fst then buildIndexLoop g fuelC fuel queue acc
      else
        let closure := depsOf g fuelC e
        buildIndexLoop g fuelC fuel (queue ++ (closure.map g.lazyImports).flatten)
          (acc ++ [(e, closure)])

/-- Modelled from the spec: `buildDepsIndex(entrypoints, analyzer)` of the
deps-index module, returning the entrypointToDeps mapping. -/
def buildDepsIndex (g : DocGraph) (fuelC fuelL : Nat)
    (entrypoints : List String) : List (String × List String) :=
  buildIndexLoop g fuelC fuelL entrypoints []

/-- Reachability along eager import edges only. -/
inductive EagerReach (g : DocGraph) : String → String → Prop
  | refl (u : String) : EagerReach g u u
  | step {u v w : String} : EagerReach g u v → w ∈ g.eagerImports v →
      EagerReach g u w

/-- Modelled from the spec: the eager import edges of the lazy-imports test
fixture tree (test/html/imports, not part of the snapshot), reconstructed
from the fixture file names and the expected index asserted by the test
"with lazy imports" (src/unnamed/part_000 lines 62-88). -/
def lazyFixtureEager : String → List String
  | "lazy-imports.html" => ["lazy-imports/shared-eager-and-lazy-import-1.html"]
  | "lazy-imports/lazy-import-1.html" =>
      ["lazy-imports/shared-eager-import-1.html",
       "lazy-imports/shared-eager-import-2.html"]
  | "lazy-imports/lazy-import-2.html" =>
      ["lazy-imports/shared-eager-import-1.html",
       "lazy-imports/shared-eager-import-2.html",
       "lazy-imports/shared-eager-and-lazy-import-1.html",
       "lazy-imports/subfolder/eager-import-1.html",
       "lazy-imports/subfolder/eager-import-2.html"]
  | "lazy-imports/deeply-lazy-import-1.html" =>
      ["lazy-imports/deeply-lazy-imports-eager-import-1.html"]
  | _ => []

/-- Modelled from the spec: the lazy import edges of the same fixture tree. -/
def lazyFixtureLazy : String → List String
  | "lazy-imports.html" =>
      ["lazy-imports/lazy-import-1.html",
       "lazy-imports/lazy-import-2.html",
       "lazy-imports/subfolder/lazy-import-3.html"]
  | "lazy-imports/lazy-import-1.html" =>
      ["lazy-imports/shared-eager-and-lazy-import-1.html"]
  | "lazy-imports/lazy-import-2.html" =>
      ["lazy-imports/deeply-lazy-import-1.html"]
  | _ => []

/-- The lazy-imports fixture graph. -/
def lazyFixtureGraph : DocGraph := ⟨lazyFixtureEager, lazyFixtureLazy⟩

/-! ## Manifest forking and the production loop (`bundle()`, bundler.js
lines 80-92) -/

/-- A bundle manifest value: the ordered mapping from output URL to Bundle
(the `bundles` map of a BundleManifest). -/
abbrev ManifestVal := List (String × Bundle)

/-- A store of live manifest objects; a manifest reference is an index into
the store.  JavaScript object identity — what mutation acts on — is made
explicit this way. -/
abbrev ManifestStore := List ManifestVal

/-- Modelled from the spec: `BundleManifest.fork` (bundle-manifest module,
not part of the source snapshot): "a structurally independent deep copy that
shares no mutable sets with the original".  In the store model, fork
allocates a fresh object holding a copy of the referenced manifest's value
and returns the new reference. -/
def forkManifest (st : ManifestStore) (r : Nat) : ManifestStore × Nat :=
  (st ++ [st.getD r []], st.length)

/-- One iteration of the production loop of `bundle()` (bundler.js lines
84-89): `_bundleDocument(bundle, manifest)` receives only the forked
manifest, so its manifest-visible effect (which flows through the module
import-utils, not part of the source snapshot) is an arbitrary
per-bundle update applied to the fork's cell; the produced document then
records the bundle's member files read back from the fork
(`Array.from(bundle.bundle.files)`). -/
def bundleLoopStep (update : String → ManifestVal → ManifestVal) (rf : Nat)
    (acc : ManifestStore × List (String × List String))
    (entry : String × Bundle) :
    ManifestStore × List (String × List String) :=
  let st1 := acc.1.set rf (update entry.1 (acc.1.getD rf []))
  let files := (((st1.getD rf []).lookup entry.1).map Bundle.files).getD []
  (st1, acc.2 ++ [(entry.1, files)])

/-- `bundle(manifest)` (bundler.js lines 80-92): `manifest = manifest.fork()`
runs before the loop, the loop iterates over the fork's bundles producing
one document per entry, and the returned result holds the fork — not the
caller's manifest — plus the document collection. -/
def bundleRun (update : String → ManifestVal → ManifestVal)
    (st : ManifestStore) (r : Nat) :
    ManifestStore × Nat × List (String × List String) :=
  let fk := forkManifest st r
  let entries := fk.1.getD fk.2 []
  let result := entries.foldl (bundleLoopStep update fk.2) (fk.1, [])
  (result.1, fk.2, result.2)

/-! ## Document trees: hidden container, structural normalization
(`_prepareBundleDocument` and helpers, bundler.js lines 126-149, 191-206,
239-245, 392-444) and import injection (`_injectHtmlImportsForBundle`,
bundler.js lines 252-305) -/

/-- A flat html element as relevant to injection and normalization: a link
for an import (with its target and laziness), a script, a style, or anything
else; numeric tags keep distinct nodes distinct. -/
inductive HtmlNode
  | link (href : String) (lazyFlag : Bool)
  | script (tag : Nat)
  | style (tag : Nat)
  | other (tag : Nat)
deriving DecidableEq, Repr

/-- A direct child of the document body: an ordinary element or the hidden
container div (`div[hidden][by-polymer-bundler]`, `_createHiddenDiv`,
bundler.js lines 191-196) with its children. -/
inductive BodyItem
  | node (n : HtmlNode)
  | hiddenDiv (children : List HtmlNode)
deriving DecidableEq, Repr

/-- A parsed document as relevant here: the children of the head and of the
body (parse5 always supplies both). -/
structure HtmlDoc where
  head : List HtmlNode
  body : List BodyItem
deriving DecidableEq, Repr

/-- Modelled from the spec: `matchers.eagerHtmlImport` (the matchers module
is not part of the source snapshot) — an import link that is not lazy
(glossary: "Eager import"). -/
def isEagerImport : HtmlNode → Bool
  | .link _ lazyFlag => !lazyFlag
  | _ => false

/-- Modelled from the spec: `matchers.orderedImperative` — "further imports,
inline/external scripts, inline/external styles — order-sensitive
constructs" (spec section 4.4 step 2). -/
def isOrderedImperative : HtmlNode → Bool
  | .link _ _ => true
  | .script _ => true
  | .style _ => true
  | .other _ => false

/-- The eager-import href carried by a node, as a zero-or-one element list. -/
def nodeEagerHrefs : HtmlNode → List String
  | .link h false => [h]
  | _ => []

/-- All eager import link hrefs of a document in source order: head first,
then body, descending into the hidden container. -/
def eagerLinkHrefs (d : HtmlDoc) : List String :=
  (d.head.map nodeEagerHrefs).flatten ++
  (d.body.map (fun bi =>
    match bi with
    | BodyItem.node n => nodeEagerHrefs n
    | BodyItem.hiddenDiv cs => (cs.map nodeEagerHrefs).flatten)).flatten

/-- Whether a hidden container exists in the document
(`dom5.query(ast, matchers.hiddenDiv)`). -/
def hasHiddenDiv (d : HtmlDoc) : Bool :=
  d.body.any (fun bi =>
    match bi with
    | BodyItem.hiddenDiv _ => true
    | BodyItem.node _ => false)

/-- Place a fresh hidden container right after the first direct body child
that is an eager import (the `insertAfter(firstHtmlImport, hiddenDiv)` branch
of `_attachHiddenDiv`); `none` when no direct body child is one. -/
def insertDivAfterFirstEager : List BodyItem → Option (List BodyItem)
  | [] => none
  | BodyItem.node n :: rest =>
      if isEagerImport n then some (BodyItem.node n :: BodyItem.hiddenDiv [] :: rest)
      else (insertDivAfterFirstEager rest).map (fun b2 => BodyItem.node n :: b2)
  | BodyItem.hiddenDiv cs :: rest =>
      (insertDivAfterFirstEager rest).map (fun b2 => BodyItem.hiddenDiv cs :: b2)

/-- `_attachHiddenDiv` (bundler.js lines 134-149) on a document with a body:
when the document's first eager import is a direct body child the container
goes right after it; otherwise (first import absent, in the head, or nested)
the container is prepended to the body. -/
def attachHiddenDiv (d : HtmlDoc) : HtmlDoc :=
  if d.head.any isEagerImport then
    { d with body := BodyItem.hiddenDiv [] :: d.body }
  else
    match insertDivAfterFirstEager d.body with
    | some b2 => { d with body := b2 }
    | none => { d with body := BodyItem.hiddenDiv [] :: d.body }

/-- `_findOrCreateHiddenDiv` (bundler.js lines 239-245). -/
def findOrCreateHiddenDiv (d : HtmlDoc) : HtmlDoc :=
  if hasHiddenDiv d then d else attachHiddenDiv d

/-- Append a node inside the first hidden container of the body. -/
def appendToFirstDiv (n : HtmlNode) : List BodyItem → List BodyItem
  | [] => []
  | BodyItem.hiddenDiv cs :: rest => BodyItem.hiddenDiv (cs ++ [n]) :: rest
  | item :: rest => item :: appendToFirstDiv n rest

/-- `dom5.append(hiddenDiv, node)` — append into the hidden container. -/
def appendToHiddenDiv (d : HtmlDoc) (n : HtmlNode) : HtmlDoc :=
  { d with body := appendToFirstDiv n d.body }

/-- Split a node list at its first eager import link: pre ++ first :: post
with no eager import in pre. -/
def splitAtFirstEagerLink :
    List HtmlNode → Option (List HtmlNode × HtmlNode × List HtmlNode)
  | [] => none
  | n :: rest =>
      if isEagerImport n then some ([], n, rest)
      else (splitAtFirstEagerLink rest).map
        (fun pfs => (n :: pfs.1, pfs.2.1, pfs.2.2))

/-- `_moveOrderedImperativesFromHeadIntoHiddenDiv` (bundler.js lines
398-413): from the head's first eager import onward, every order-sensitive
sibling is removed from the head and appended, in order, into the hidden
container (created, if absent, at the moment the first node moves). -/
def moveOrderedImperativesFromHeadIntoHiddenDiv (d : HtmlDoc) : HtmlDoc :=
  match splitAtFirstEagerLink d.head with
  | none => d
  | some (pre, first, post) =>
      let moved := first :: post.filter isOrderedImperative
      let d1 := findOrCreateHiddenDiv { d with head := pre ++ post }
      let d2 := { d1 with
        head := pre ++ post.filter (fun n => !(isOrderedImperative n)) }
      moved.foldl appendToHiddenDiv d2

/-- Remove the first direct body child that is an eager import, returning
the remaining body and the removed node. -/
def removeFirstBodyEager : List BodyItem → Option (List BodyItem × HtmlNode)
  | [] => none
  | BodyItem.node n :: rest =>
      if isEagerImport n then some (rest, n)
      else (removeFirstBodyEager rest).map
        (fun bm => (BodyItem.node n :: bm.1, bm.2))
  | BodyItem.hiddenDiv cs :: rest =>
      (removeFirstBodyEager rest).map
        (fun bm => (BodyItem.hiddenDiv cs :: bm.1, bm.2))

/-- Remove the first eager import that is not inside the hidden container
(head first, then direct body children). -/
def removeFirstUnhiddenEager (d : HtmlDoc) : Option (HtmlDoc × HtmlNode) :=
  match splitAtFirstEagerLink d.head with
  | some (pre, first, post) => some ({ d with head := pre ++ post }, first)
  | none =>
      (removeFirstBodyEager d.body).map
        (fun bm => ({ d with body := bm.1 }, bm.2))

/-- Whether a body item is an eager import outside the hidden container. -/
def isUnhiddenBodyEager : BodyItem → Bool
  | BodyItem.node n => isEagerImport n
  | BodyItem.hiddenDiv _ => false

/-- Number of eager imports sitting outside the hidden container. -/
def countUnhiddenEager (d : HtmlDoc) : Nat :=
  (d.head.filter isEagerImport).length +
  (d.body.filter isUnhiddenBodyEager).length

/-- The iteration of `_moveUnhiddenHtmlImportsIntoHiddenDiv` (bundler.js
lines 418-424): repeatedly take the first eager import outside the hidden
container and move it into the container (creating it if needed); fuel
bounds the iteration count. -/
def moveUnhiddenLoop : Nat → HtmlDoc → HtmlDoc
  | 0, d => d
  | fuel + 1, d =>
      match removeFirstUnhiddenEager d with
      | none => d
      | some (d2, n) =>
          moveUnhiddenLoop fuel (appendToHiddenDiv (findOrCreateHiddenDiv d2) n)

/-- `_moveUnhiddenHtmlImportsIntoHiddenDiv` (bundler.js lines 418-424). -/
def moveUnhiddenHtmlImportsIntoHiddenDiv (d : HtmlDoc) : HtmlDoc :=
  moveUnhiddenLoop (countUnhiddenEager d) d

/-- The document `_analyzeContents(url, '')` yields: an empty page. -/
def emptyHtmlDoc : HtmlDoc := ⟨[], []⟩

/-- `_prepareBundleDocument` (bundler.js lines 431-444): when the bundle url
is not a member file, the empty document anchored at the bundle url with no
normalization; otherwise the member file parsed at that url with the two
normalization passes applied.  (The serialize/re-analyze round trip and
removeFakeRootElements are structure-preserving here.) -/
def prepareBundleDocument (parse : String → HtmlDoc) (b : DocBundle) :
    String × HtmlDoc :=
  if b.bundle.files.contains b.url then
    (b.url, moveUnhiddenHtmlImportsIntoHiddenDiv
      (moveOrderedImperativesFromHeadIntoHiddenDiv (parse b.url)))
  else (b.url, emptyHtmlDoc)

/-- Whether a node is an eager import link for exactly the given target. -/
def isEagerLinkWithHref (target : String) : HtmlNode → Bool
  | .link href lazyFlag => !lazyFlag && href == target
  | _ => false

/-- Insert a new node immediately before the first eager link with the given
href in a node list. -/
def insertBeforeInNodes (target : String) (nw : HtmlNode) :
    List HtmlNode → Option (List HtmlNode)
  | [] => none
  | n :: rest =>
      if isEagerLinkWithHref target n then some (nw :: n :: rest)
      else (insertBeforeInNodes target nw rest).map (fun l => n :: l)

/-- Insert a new node immediately before the first eager link with the given
href among the body items, descending into the hidden container. -/
def insertBeforeInBody (target : String) (nw : HtmlNode) :
    List BodyItem → Option (List BodyItem)
  | [] => none
  | BodyItem.node n :: rest =>
      if isEagerLinkWithHref target n then
        some (BodyItem.node nw :: BodyItem.node n :: rest)
      else (insertBeforeInBody target nw rest).map
        (fun l => BodyItem.node n :: l)
  | BodyItem.hiddenDiv cs :: rest =>
      match insertBeforeInNodes target nw cs with
      | some cs2 => some (BodyItem.hiddenDiv cs2 :: rest)
      | none => (insertBeforeInBody target nw rest).map
          (fun l => BodyItem.hiddenDiv cs :: l)

/-- `dom5.insertBefore(prependTarget.parentNode, prependTarget, newHtmlImport)`
(bundler.js line 298), locating the target link by href in document order. -/
def insertBeforeLink (d : HtmlDoc) (target : String) (nw : HtmlNode) : HtmlDoc :=
  match insertBeforeInNodes target nw d.head with
  | some h2 => { d with head := h2 }
  | none =>
      match insertBeforeInBody target nw d.body with
      | some b2 => { d with body := b2 }
      | none => d

/-- `_injectHtmlImportsForBundle` (bundler.js lines 252-305).  `deps` models
the analyzer-derived `existingImportDependencies` map (transitive eager
dependencies of each existing direct import) and `relativeUrl` the url-utils
relativization; existing links are assumed to carry distinct hrefs so a link
node is identified by its href.  For each member file that is not the bundle
url and has no matching existing import, the anchor is the earliest existing
direct eager import that is not a member of this bundle and whose transitive
dependencies include the injected url; the new link goes immediately before
the anchor, and with no anchor the code appends it to the hidden container's
PARENT (`dom5.append(hiddenDiv.parentNode, newHtmlImport)`, line 302) after
ensuring the container exists — in this body-rooted model, to the end of the
body. -/
def injectHtmlImportsForBundle (relativeUrl : String → String → String)
    (deps : String → List String) (bundle : DocBundle) (d : HtmlDoc) : HtmlDoc :=
  let existingImports := eagerLinkHrefs d
  bundle.bundle.files.foldl
    (fun dCur importUrl =>
      if bundle.url = importUrl then dCur
      else if existingImports.contains importUrl then dCur
      else
        let anchors := existingImports.filter
          (fun e => !(bundle.bundle.files.contains e) &&
            (deps e).contains importUrl)
        let newLink := HtmlNode.link (relativeUrl bundle.url importUrl) false
        match (eagerLinkHrefs dCur).find? (fun h => anchors.contains h) with
        | some target => insertBeforeLink dCur target newLink
        | none =>
            let d2 := findOrCreateHiddenDiv dCur
            { d2 with body := d2.body ++ [BodyItem.node newLink] }) d

end PolymerBundler

namespace PolymerBundler

/-- Membership after one exclude pass: a file survives `removeOneExclude` iff
it was present, differs from the exclude, and does not start with the
exclude's folder form. -/
theorem mem_removeOneExclude (files : List String) (e f : String) :
    f ∈ removeOneExclude files e ↔
      f ∈ files ∧ f ≠ e ∧ strStartsWith f (excludeAsFolder e) = false := by
  simp only [removeOneExclude, List.mem_filter, and_assoc, bne_iff_ne,
    Bool.not_eq_true', ne_eq]

/-- Membership after the whole removal phase: a file survives iff it was
present and no exclude matches it exactly or as a folder prefix. -/
theorem mem_removeExcludedFiles (excludes files : List String) (f : String) :
    f ∈ removeExcludedFiles excludes files ↔
      f ∈ files ∧ ∀ e ∈ excludes,
        f ≠ e ∧ strStartsWith f (excludeAsFolder e) = false := by
  induction excludes generalizing files with
  | nil => simp [removeExcludedFiles]
  | cons e es ih =>
    simp only [removeExcludedFiles, List.foldl_cons] at *
    rw [ih, mem_removeOneExclude]
    constructor
    · rintro ⟨⟨hf, hne, hpre⟩, hall⟩
      exact ⟨hf, fun x hx => by
        rcases List.mem_cons.mp hx with h | h
        · subst h; exact ⟨hne, hpre⟩
        · exact hall x h⟩
    · rintro ⟨hf, hall⟩
      refine ⟨⟨hf, (hall e (List.mem_cons_self e es)).1,
        (hall e (List.mem_cons_self e es)).2⟩, fun x hx => hall x (List.mem_cons_of_mem e hx)⟩

/-- C3: for every bundle and every entry of the excludes list, the exclusion
filter removes exactly the excluded URL itself and every file whose path has
the exclude as a directory prefix (an exclude without a trailing separator is
treated as also excluding exclude + '/'); in particular excluding "a/"
removes "a/b.html" and "a/b/c.html" but never removes "ab.html". -/
theorem exclude_removes_exact_and_prefix_matches :
    (∀ (excludes : List String) (bundles : List Bundle) (bOut : Bundle),
        bOut ∈ filterExcludesFromBundles excludes bundles →
          ∃ bIn ∈ bundles,
            bOut.stripImports = bIn.stripImports ∧
            ∀ f : String,
              f ∈ bOut.files ↔
                f ∈ bIn.files ∧ ∀ e ∈ excludes,
                  f ≠ e ∧ strStartsWith f (excludeAsFolder e) = false)
  ∧ filterExcludesFromBundles ["a/"]
      [⟨["a/b.html", "a/b/c.html", "ab.html"], []⟩] = [⟨["ab.html"], []⟩] := by
  constructor
  · intro excludes bundles bOut hmem
    simp only [filterExcludesFromBundles, dropEmptyBundles, List.mem_filter,
      List.mem_map] at hmem
    obtain ⟨⟨bIn, hbIn, hEq⟩, -⟩ := hmem
    refine ⟨bIn, hbIn, ?_, ?_⟩
    · rw [← hEq]
    · intro f
      rw [← hEq]
      exact mem_removeExcludedFiles excludes bIn.files f
  · decide

/-- C3 witness: instantiation of the characterization at a concrete bundle
list, showing "a/b.html" is removed and "ab.html" survives. -/
theorem exclude_removes_exact_and_prefix_matches_witness :
    ∃ bIn ∈ [(⟨["a/b.html", "ab.html"], []⟩ : Bundle)],
      (⟨["ab.html"], []⟩ : Bundle).stripImports = bIn.stripImports ∧
      ∀ f : String,
        f ∈ (⟨["ab.html"], []⟩ : Bundle).files ↔
          f ∈ bIn.files ∧ ∀ e ∈ ["a/"],
            f ≠ e ∧ strStartsWith f (excludeAsFolder e) = false :=
  exclude_removes_exact_and_prefix_matches.1 ["a/"]
    [⟨["a/b.html", "ab.html"], []⟩] ⟨["ab.html"], []⟩ (by decide)

/-- C2: contrary to the claim (and to the function's own documentation), a
bundle whose file set is emptied by the exclusion removals is NOT dropped:
the pruning loop tests `bundles[b].files.size < 0`, which never holds, so the
emptied bundle survives to URL assignment. Here the single bundle
{files: {"a.html"}} with excludes ["a.html"] comes out empty but present. -/
theorem emptied_bundle_survives_filter :
    filterExcludesFromBundles ["a.html"] [⟨["a.html"], []⟩] = [⟨[], []⟩]
  ∧ (filterExcludesFromBundles ["a.html"] [⟨["a.html"], []⟩]).length = 1 := by
  decide

/-- C9: omitting `inlineCss` enables stylesheet inlining and omitting
`inlineScripts` enables script inlining, so by default `_bundleDocument`
executes the script-inlining and both stylesheet-inlining stages. -/
theorem inline_options_default_true (opts : Options)
    (hcss : opts.inlineCss = none) (hjs : opts.inlineScripts = none) :
    (mkBundler (some opts)).enableCssInlining = true
  ∧ (mkBundler (some opts)).enableScriptInlining = true
  ∧ BundleStep.inlineScriptsStep ∈ bundleDocumentSteps (mkBundler (some opts))
  ∧ BundleStep.inlineStylesheetLinksStep ∈ bundleDocumentSteps (mkBundler (some opts))
  ∧ BundleStep.inlineStylesheetImportsStep ∈
      bundleDocumentSteps (mkBundler (some opts)) := by
  have hc : (mkBundler (some opts)).enableCssInlining = true := by
    simp [mkBundler, hcss]
  have hs : (mkBundler (some opts)).enableScriptInlining = true := by
    simp [mkBundler, hjs]
  refine ⟨hc, hs, ?_, ?_, ?_⟩ <;> simp [bundleDocumentSteps, hc, hs]

/-- C9 witness: the empty options object takes both defaults and the three
inlining stages are present in the pipeline. -/
theorem inline_options_default_true_witness :
    (mkBundler (some {})).enableCssInlining = true
  ∧ (mkBundler (some {})).enableScriptInlining = true
  ∧ BundleStep.inlineScriptsStep ∈ bundleDocumentSteps (mkBundler (some {}))
  ∧ BundleStep.inlineStylesheetLinksStep ∈ bundleDocumentSteps (mkBundler (some {}))
  ∧ BundleStep.inlineStylesheetImportsStep ∈
      bundleDocumentSteps (mkBundler (some {})) :=
  inline_options_default_true {} rfl rfl

/-- Every bundle the counting mapper emits either keeps its sole entrypoint
as its URL (single-entrypoint owner signature) or receives a synthetic name
of the form prefix ++ counter. -/
theorem mem_countingMapper_fold (pre : String) (bundles : List ProvBundle) :
    ∀ (acc : Nat × List (String × ProvBundle)) (u : String) (b : ProvBundle),
      (u, b) ∈ (bundles.foldl (countingMapperStep pre) acc).2 →
      (u, b) ∈ acc.2 ∨ b.entrypoints = [u] ∨ ∃ k : Nat, u = pre ++ toString k := by
  induction bundles with
  | nil => intro acc u b h; exact Or.inl h
  | cons hd tl ih =>
    intro acc u b h
    rw [List.foldl_cons] at h
    rcases ih (countingMapperStep pre acc hd) u b h with h' | h' | h'
    · rcases heps : hd.entrypoints with _ | ⟨e, es⟩
      · simp only [countingMapperStep, heps, List.mem_append] at h'
        rcases h' with h' | h'
        · exact Or.inl h'
        · simp only [List.mem_singleton, Prod.mk.injEq] at h'
          exact Or.inr (Or.inr ⟨acc.1, h'.1⟩)
      · rcases es with _ | ⟨e2, es2⟩
        · simp only [countingMapperStep, heps, List.mem_append] at h'
          rcases h' with h' | h'
          · exact Or.inl h'
          · simp only [List.mem_singleton, Prod.mk.injEq] at h'
            refine Or.inr (Or.inl ?_)
            rw [h'.2, heps, h'.1]
        · simp only [countingMapperStep, heps, List.mem_append] at h'
          rcases h' with h' | h'
          · exact Or.inl h'
          · simp only [List.mem_singleton, Prod.mk.injEq] at h'
            exact Or.inr (Or.inr ⟨acc.1, h'.1⟩)
    · exact Or.inr (Or.inl h')
    · exact Or.inr (Or.inr h')

/-- C10: when `strategy` and `urlMapper` are omitted, the constructed Bundler
uses the shared-dependencies merge strategy and the counting shared-bundle
URL mapper with prefix "shared_bundle_" (so synthetic shared-bundle URLs
start with "shared_bundle_"), and a non-array `excludes` option (including an
omitted one) yields an empty excludes list. -/
theorem default_strategy_and_url_mapper (opts : Options)
    (hstrat : opts.strategy = none) (hmap : opts.urlMapper = none) :
    (mkBundler (some opts)).strategy = sharedDepsMergeStrategy
  ∧ (mkBundler (some opts)).urlMapper = countingSharedBundleUrlMapper "shared_bundle_"
  ∧ (∀ (bundles : List ProvBundle) (u : String) (b : ProvBundle),
        (u, b) ∈ (mkBundler (some opts)).urlMapper bundles →
        (∀ e : String, b.entrypoints ≠ [e]) →
        ∃ rest : String, u = "shared_bundle_" ++ rest)
  ∧ (∀ eo : ExcludesOpt, (∀ urls, eo ≠ ExcludesOpt.arrayV urls) →
        (mkBundler (some { opts with excludes := eo })).excludes = []) := by
  have h1 : (mkBundler (some opts)).strategy = sharedDepsMergeStrategy := by
    simp [mkBundler, hstrat]
  have h2 : (mkBundler (some opts)).urlMapper =
      countingSharedBundleUrlMapper "shared_bundle_" := by
    simp [mkBundler, hmap]
  refine ⟨h1, h2, ?_, ?_⟩
  · intro bundles u b hmem hnot
    rw [h2] at hmem
    rcases mem_countingMapper_fold "shared_bundle_" bundles (1, []) u b hmem with
      h | h | ⟨k, hk⟩
    · simp at h
    · exact absurd h (hnot u)
    · exact ⟨toString k, hk⟩
  · intro eo heo
    cases eo with
    | undefinedV => simp [mkBundler, excludesOf]
    | arrayV urls => exact absurd rfl (heo urls)
    | otherV => simp [mkBundler, excludesOf]

/-- C10 witness: the empty options object, with the mapper applied to a
two-entrypoint provisional bundle yielding the synthetic name
shared_bundle_1, and a non-array excludes value yielding the empty list. -/
theorem default_strategy_and_url_mapper_witness :
    (mkBundler (some {})).strategy = sharedDepsMergeStrategy
  ∧ (mkBundler (some {})).urlMapper = countingSharedBundleUrlMapper "shared_bundle_"
  ∧ (∀ (bundles : List ProvBundle) (u : String) (b : ProvBundle),
        (u, b) ∈ (mkBundler (some {})).urlMapper bundles →
        (∀ e : String, b.entrypoints ≠ [e]) →
        ∃ rest : String, u = "shared_bundle_" ++ rest)
  ∧ (∀ eo : ExcludesOpt, (∀ urls, eo ≠ ExcludesOpt.arrayV urls) →
        (mkBundler (some { ({} : Options) with excludes := eo })).excludes = []) :=
  default_strategy_and_url_mapper {} rfl rfl

/-- Content count after inlining with an arbitrary strip set: the tree gains
exactly one content node for a URL iff the URL is not in the strip set and
some import link for it is present; otherwise the content count is
unchanged. -/
theorem countContent_inlineGo (u : String) (l : List INode) : ∀ s : List String,
    countContent u (inlineHtmlImportsGo s l) =
      countContent u l +
        (if u ∉ s ∧ INode.importLink u ∈ l then 1 else 0) := by
  induction l with
  | nil => intro s; simp [inlineHtmlImportsGo, countContent]
  | cons hd rest ih =>
    intro s
    cases hd with
    | importLink href =>
      by_cases hs : href ∈ s
      · simp only [inlineHtmlImportsGo, if_pos hs, ih s, countContent,
          List.mem_cons]
        by_cases hu : u = href
        · subst hu
          simp [hs]
        · have : ¬ (INode.importLink u = INode.importLink href) := by
            simp [hu]
          simp [this]
      · simp only [inlineHtmlImportsGo, if_neg hs, countContent,
          ih (s ++ [href]), List.mem_cons, List.mem_append, List.mem_singleton]
        by_cases hu : u = href
        · subst hu
          simp [hs]
          omega
        · have hne : ¬ (INode.importLink u = INode.importLink href) := by
            simp [hu]
          have hms : u ∈ s ++ [href] ↔ u ∈ s := by simp [hu]
          simp [hne, hms, hu]
          exact fun h => hu h.symm
    | content src =>
      simp only [inlineHtmlImportsGo, countContent, ih s, List.mem_cons]
      have : ¬ (INode.importLink u = INode.content src) := by simp
      simp [this]
      omega
    | otherNode t =>
      simp only [inlineHtmlImportsGo, countContent, ih s, List.mem_cons]
      have : ¬ (INode.importLink u = INode.otherNode t) := by simp
      simp [this]

/-- No import link survives inlining: every collected link is either replaced
by content or removed. -/
theorem no_importLink_after_inlineGo (u : String) (l : List INode) :
    ∀ s : List String, INode.importLink u ∉ inlineHtmlImportsGo s l := by
  induction l with
  | nil => intro s; simp [inlineHtmlImportsGo]
  | cons hd rest ih =>
    intro s
    cases hd with
    | importLink href =>
      by_cases hs : href ∈ s
      · simpa [inlineHtmlImportsGo, if_pos hs] using ih s
      · simp only [inlineHtmlImportsGo, if_neg hs, List.mem_cons]
        rintro (h | h)
        · exact absurd h (by simp)
        · exact ih (s ++ [href]) h
    | content src =>
      simp only [inlineHtmlImportsGo, List.mem_cons]
      rintro (h | h)
      · exact absurd h (by simp)
      · exact ih s h
    | otherNode t =>
      simp only [inlineHtmlImportsGo, List.mem_cons]
      rintro (h | h)
      · exact absurd h (by simp)
      · exact ih s h

/-- C4: during import inlining each distinct target URL contributes its
inlined content exactly once — the first link for a URL not in the bundle's
stripImports is replaced by its content, every later link for the same URL
is removed with no second inlining, a link whose target is in stripImports
is removed with no replacement, and no import link survives. -/
theorem inline_imports_once_per_url (bundle : Bundle) (ast : List INode)
    (u : String) :
    (countContent u (inlineHtmlImports bundle ast) =
      countContent u ast +
        (if u ∉ bundle.stripImports ∧ INode.importLink u ∈ ast then 1 else 0))
  ∧ INode.importLink u ∉ inlineHtmlImports bundle ast :=
  ⟨countContent_inlineGo u ast bundle.stripImports,
   no_importLink_after_inlineGo u ast bundle.stripImports⟩

/-- The visited set only grows during the eager walk. -/
theorem subset_eagerClosure (g : DocGraph) :
    ∀ (fuel : Nat) (frontier visited : List String),
      visited ⊆ eagerClosure g fuel frontier visited := by
  intro fuel
  induction fuel with
  | zero => intro frontier visited; exact fun x hx => by simpa [eagerClosure] using hx
  | succ n ih =>
    intro frontier visited
    cases frontier with
    | nil => exact fun x hx => by simpa [eagerClosure] using hx
    | cons u rest =>
      by_cases hu : u ∈ visited
      · intro x hx
        simpa [eagerClosure, if_pos hu] using ih rest visited hx
      · intro x hx
        simpa [eagerClosure, if_neg hu] using
          ih (rest ++ g.eagerImports u) (visited ++ [u]) (List.mem_append_left _ hx)

/-- Every entrypoint is a member of its own computed closure. -/
theorem self_mem_depsOf (g : DocGraph) (fuel : Nat) (e : String) :
    e ∈ depsOf g fuel e :=
  subset_eagerClosure g fuel (g.eagerImports e) [e] (List.mem_singleton.mpr rfl)

/-- Invariant of the index builder loop: every recorded entry's key belongs
to its closure. -/
theorem buildIndexLoop_self_mem (g : DocGraph) (fuelC : Nat) :
    ∀ (fuel : Nat) (queue : List String) (acc : List (String × List String)),
      (∀ p ∈ acc, p.1 ∈ p.2) →
      ∀ p ∈ buildIndexLoop g fuelC fuel queue acc, p.1 ∈ p.2 := by
  intro fuel
  induction fuel with
  | zero =>
    intro queue acc hacc p hp
    exact hacc p (by simpa [buildIndexLoop] using hp)
  | succ n ih =>
    intro queue acc hacc p hp
    cases queue with
    | nil => exact hacc p (by simpa [buildIndexLoop] using hp)
    | cons e rest =>
      by_cases he : e ∈ acc.map Prod.fst
      · rw [show buildIndexLoop g fuelC (n + 1) (e :: rest) acc =
            buildIndexLoop g fuelC n rest acc from by
              simp [buildIndexLoop, if_pos he]] at hp
        exact ih rest acc hacc p hp
      · rw [show buildIndexLoop g fuelC (n + 1) (e :: rest) acc =
            buildIndexLoop g fuelC n
              (rest ++ ((depsOf g fuelC e).map g.lazyImports).flatten)
              (acc ++ [(e, depsOf g fuelC e)]) from by
              simp [buildIndexLoop, if_neg he]] at hp
        refine ih _ _ ?_ p hp
        intro q hq
        rcases List.mem_append.mp hq with h | h
        · exact hacc q h
        · rw [List.mem_singleton] at h
          subst h
          exact self_mem_depsOf g fuelC e

/-- C5: every entrypoint appearing in the index produced by the dependency
index builder is a member of the closure mapped to it. -/
theorem entrypoint_mem_own_closure (g : DocGraph) (fuelC fuelL : Nat)
    (entrypoints : List String) (e : String) (cl : List String)
    (h : (e, cl) ∈ buildDepsIndex g fuelC fuelL entrypoints) : e ∈ cl :=
  buildIndexLoop_self_mem g fuelC fuelL entrypoints [] (by simp) (e, cl) h

/-- C5 witness: the lazy-imports fixture index maps the entrypoint to a
closure containing it. -/
theorem entrypoint_mem_own_closure_witness :
    "lazy-imports.html" ∈
      ["lazy-imports.html", "lazy-imports/shared-eager-and-lazy-import-1.html"] :=
  entrypoint_mem_own_closure lazyFixtureGraph 20 20 ["lazy-imports.html"]
    "lazy-imports.html"
    ["lazy-imports.html", "lazy-imports/shared-eager-and-lazy-import-1.html"]
    (by decide)

/-- Soundness of the eager walk: everything collected is eager-reachable from
what was already reachable. -/
theorem eagerClosure_sound (g : DocGraph) (e : String) :
    ∀ (fuel : Nat) (frontier visited : List String),
      (∀ v ∈ visited, EagerReach g e v) →
      (∀ u ∈ frontier, EagerReach g e u) →
      ∀ d ∈ eagerClosure g fuel frontier visited, EagerReach g e d := by
  intro fuel
  induction fuel with
  | zero =>
    intro frontier visited hv hf d hd
    exact hv d (by simpa [eagerClosure] using hd)
  | succ n ih =>
    intro frontier visited hv hf d hd
    cases frontier with
    | nil => exact hv d (by simpa [eagerClosure] using hd)
    | cons u rest =>
      by_cases hu : u ∈ visited
      · rw [show eagerClosure g (n + 1) (u :: rest) visited =
            eagerClosure g n rest visited from by simp [eagerClosure, if_pos hu]] at hd
        exact ih rest visited hv (fun x hx => hf x (List.mem_cons_of_mem u hx)) d hd
      · rw [show eagerClosure g (n + 1) (u :: rest) visited =
            eagerClosure g n (rest ++ g.eagerImports u) (visited ++ [u]) from by
              simp [eagerClosure, if_neg hu]] at hd
        refine ih (rest ++ g.eagerImports u) (visited ++ [u]) ?_ ?_ d hd
        · intro v hvv
          rcases List.mem_append.mp hvv with h | h
          · exact hv v h
          · rw [List.mem_singleton] at h
            rw [h]
            exact hf u (List.mem_cons_self u rest)
        · intro x hx
          rcases List.mem_append.mp hx with h | h
          · exact hf x (List.mem_cons_of_mem u h)
          · exact EagerReach.step (hf u (List.mem_cons_self u rest)) h

/-- Every member of an entrypoint's computed closure is eager-reachable from
the entrypoint: lazy edges are never followed into a closure. -/
theorem depsOf_sound (g : DocGraph) (fuel : Nat) (e d : String)
    (h : d ∈ depsOf g fuel e) : EagerReach g e d :=
  eagerClosure_sound g e fuel (g.eagerImports e) [e]
    (fun v hv => by
      rw [List.mem_singleton] at hv
      rw [hv]
      exact EagerReach.refl e)
    (fun u hu => EagerReach.step (EagerReach.refl e) hu) d h

/-- C6: a document in any closure is eager-reachable from its entrypoint (so
a document reached only via a lazy link never enters the referencing
entrypoint's closure), and on the lazy-imports fixture the index gives the
entrypoint exactly the closure {lazy-imports.html,
shared-eager-and-lazy-import-1.html} while every lazily reached document is
its own entrypoint with a closure computed from its own eager imports,
containing itself. -/
theorem lazy_only_documents_isolated :
    (∀ (g : DocGraph) (fuel : Nat) (e d : String),
        d ∈ depsOf g fuel e → EagerReach g e d)
  ∧ buildDepsIndex lazyFixtureGraph 20 20 ["lazy-imports.html"] =
      [("lazy-imports.html",
        ["lazy-imports.html",
         "lazy-imports/shared-eager-and-lazy-import-1.html"]),
       ("lazy-imports/lazy-import-1.html",
        ["lazy-imports/lazy-import-1.html",
         "lazy-imports/shared-eager-import-1.html",
         "lazy-imports/shared-eager-import-2.html"]),
       ("lazy-imports/lazy-import-2.html",
        ["lazy-imports/lazy-import-2.html",
         "lazy-imports/shared-eager-import-1.html",
         "lazy-imports/shared-eager-import-2.html",
         "lazy-imports/shared-eager-and-lazy-import-1.html",
         "lazy-imports/subfolder/eager-import-1.html",
         "lazy-imports/subfolder/eager-import-2.html"]),
       ("lazy-imports/subfolder/lazy-import-3.html",
        ["lazy-imports/subfolder/lazy-import-3.html"]),
       ("lazy-imports/shared-eager-and-lazy-import-1.html",
        ["lazy-imports/shared-eager-and-lazy-import-1.html"]),
       ("lazy-imports/deeply-lazy-import-1.html",
        ["lazy-imports/deeply-lazy-import-1.html",
         "lazy-imports/deeply-lazy-imports-eager-import-1.html"])] :=
  ⟨fun g fuel e d h => depsOf_sound g fuel e d h, by decide⟩

/-- C6 witness: instantiation of the soundness half on the fixture — the one
eager dependency of the entrypoint is eager-reachable from it. -/
theorem lazy_only_documents_isolated_witness :
    EagerReach lazyFixtureGraph "lazy-imports.html"
      "lazy-imports/shared-eager-and-lazy-import-1.html" :=
  lazy_only_documents_isolated.1 lazyFixtureGraph 20 "lazy-imports.html"
    "lazy-imports/shared-eager-and-lazy-import-1.html" (by decide)

/-- Writing another cell of the manifest store leaves a cell's value
unchanged. -/
theorem getD_set_ne_manifest (l : ManifestStore) (i j : Nat)
    (x : ManifestVal) (h : i ≠ j) : (l.set i x).getD j [] = l.getD j [] := by
  simp [List.getD_eq_getElem?_getD, List.getElem?_set_ne h]

/-- The production loop only ever writes the fork's cell: any other cell of
the store keeps its value through the whole fold. -/
theorem foldl_bundleLoopStep_getD (update : String → ManifestVal → ManifestVal)
    (rf r : Nat) (hne : rf ≠ r) (entries : List (String × Bundle)) :
    ∀ acc : ManifestStore × List (String × List String),
      ((entries.foldl (bundleLoopStep update rf) acc).1).getD r [] =
        acc.1.getD r [] := by
  induction entries with
  | nil => intro acc; rfl
  | cons hd tl ih =>
    intro acc
    rw [List.foldl_cons, ih]
    exact getD_set_ne_manifest _ rf r _ hne

/-- C7: `bundle()` operates on a fork — after the run, the caller's manifest
object (and so every bundle file set in it) holds its original value, and
the result's manifest reference is the fresh fork, not the caller's. -/
theorem bundle_run_preserves_caller_manifest
    (update : String → ManifestVal → ManifestVal) (st : ManifestStore)
    (r : Nat) (hr : r < st.length) :
    (bundleRun update st r).1.getD r [] = st.getD r []
  ∧ (bundleRun update st r).2.1 ≠ r := by
  constructor
  · have hne : st.length ≠ r := Nat.ne_of_gt hr
    simp only [bundleRun, forkManifest]
    rw [foldl_bundleLoopStep_getD update _ r hne]
    rw [List.getD_eq_getElem?_getD, List.getElem?_append_left hr,
      ← List.getD_eq_getElem?_getD]
  · exact Nat.ne_of_gt hr

/-- C7 witness: a one-manifest store with an update that renames files;
after the run the original cell is intact and the result reference is new. -/
theorem bundle_run_preserves_caller_manifest_witness :
    (bundleRun (fun _ _ => [("x.html", ⟨["x.html"], []⟩)])
        [[("a.html", ⟨["a.html", "b.html"], []⟩)]] 0).1.getD 0 []
      = [[("a.html", ⟨["a.html", "b.html"], []⟩)]].getD 0 []
  ∧ (bundleRun (fun _ _ => [("x.html", ⟨["x.html"], []⟩)])
        [[("a.html", ⟨["a.html", "b.html"], []⟩)]] 0).2.1 ≠ 0 :=
  bundle_run_preserves_caller_manifest
    (fun _ _ => [("x.html", ⟨["x.html"], []⟩)])
    [[("a.html", ⟨["a.html", "b.html"], []⟩)]] 0 (by decide)

/-- Inserting the (empty) hidden container after the first direct body
eager import does not change which eager imports sit outside a container. -/
theorem insertDivAfterFirstEager_filter (body b2 : List BodyItem)
    (h : insertDivAfterFirstEager body = some b2) :
    (b2.filter isUnhiddenBodyEager).length =
      (body.filter isUnhiddenBodyEager).length := by
  induction body generalizing b2 with
  | nil => simp [insertDivAfterFirstEager] at h
  | cons item rest ih =>
    cases item with
    | node n =>
      by_cases hn : isEagerImport n = true
      · simp only [insertDivAfterFirstEager, if_pos hn, Option.some.injEq] at h
        subst h
        simp [List.filter_cons, isUnhiddenBodyEager, hn]
      · simp only [insertDivAfterFirstEager, if_neg hn, Option.map_eq_some'] at h
        obtain ⟨b3, hb3, rfl⟩ := h
        simp [List.filter_cons, isUnhiddenBodyEager, hn, ih b3 hb3]
    | hiddenDiv cs =>
      simp only [insertDivAfterFirstEager, Option.map_eq_some'] at h
      obtain ⟨b3, hb3, rfl⟩ := h
      simp [List.filter_cons, isUnhiddenBodyEager, ih b3 hb3]

/-- Attaching the hidden container changes neither the head nor the number of
unhidden eager imports. -/
theorem attachHiddenDiv_count (d : HtmlDoc) :
    (attachHiddenDiv d).head = d.head ∧
    countUnhiddenEager (attachHiddenDiv d) = countUnhiddenEager d := by
  unfold attachHiddenDiv
  by_cases hh : d.head.any isEagerImport = true
  · simp [hh, countUnhiddenEager, List.filter_cons, isUnhiddenBodyEager]
  · simp only [hh, Bool.false_eq_true, if_false]
    cases hins : insertDivAfterFirstEager d.body with
    | none => simp [countUnhiddenEager, List.filter_cons, isUnhiddenBodyEager]
    | some b2 =>
      simp [countUnhiddenEager, insertDivAfterFirstEager_filter d.body b2 hins]

/-- Finding or creating the hidden container changes neither the head nor
the number of unhidden eager imports. -/
theorem findOrCreateHiddenDiv_count (d : HtmlDoc) :
    (findOrCreateHiddenDiv d).head = d.head ∧
    countUnhiddenEager (findOrCreateHiddenDiv d) = countUnhiddenEager d := by
  unfold findOrCreateHiddenDiv
  by_cases hd : hasHiddenDiv d = true
  · simp [hd]
  · simp only [hd, Bool.false_eq_true, if_false]
    exact attachHiddenDiv_count d

/-- Appending inside the first hidden container leaves the unhidden body
filter unchanged. -/
theorem appendToFirstDiv_filter (n : HtmlNode) (body : List BodyItem) :
    ((appendToFirstDiv n body).filter isUnhiddenBodyEager).length =
      (body.filter isUnhiddenBodyEager).length := by
  induction body with
  | nil => rfl
  | cons item rest ih =>
    cases item with
    | node m =>
      simp only [appendToFirstDiv, List.filter_cons]
      split <;> simp [ih]
    | hiddenDiv cs => simp [appendToFirstDiv, List.filter_cons, isUnhiddenBodyEager]

/-- Appending into the hidden container changes neither the head nor the
number of unhidden eager imports. -/
theorem appendToHiddenDiv_count (d : HtmlDoc) (n : HtmlNode) :
    (appendToHiddenDiv d n).head = d.head ∧
    countUnhiddenEager (appendToHiddenDiv d n) = countUnhiddenEager d := by
  refine ⟨rfl, ?_⟩
  simp [appendToHiddenDiv, countUnhiddenEager, appendToFirstDiv_filter]

/-- When a node list has no first eager import, it has no eager import. -/
theorem splitAtFirstEagerLink_none (l : List HtmlNode)
    (h : splitAtFirstEagerLink l = none) : l.filter isEagerImport = [] := by
  induction l with
  | nil => rfl
  | cons n rest ih =>
    by_cases hn : isEagerImport n = true
    · simp [splitAtFirstEagerLink, hn] at h
    · simp only [splitAtFirstEagerLink, if_neg hn, Option.map_eq_none'] at h
      simp [List.filter_cons, hn, ih h]

/-- The split of a node list at its first eager import decomposes it with an
eager-import-free part in front. -/
theorem splitAtFirstEagerLink_some (l : List HtmlNode)
    (pre : List HtmlNode) (first : HtmlNode) (post : List HtmlNode)
    (h : splitAtFirstEagerLink l = some (pre, first, post)) :
    l = pre ++ first :: post ∧ pre.filter isEagerImport = [] ∧
      isEagerImport first = true := by
  induction l generalizing pre with
  | nil => simp [splitAtFirstEagerLink] at h
  | cons n rest ih =>
    by_cases hn : isEagerImport n = true
    · simp only [splitAtFirstEagerLink, if_pos hn, Option.some.injEq,
        Prod.mk.injEq] at h
      obtain ⟨h1, h2, h3⟩ := h
      subst h1; subst h2; subst h3
      exact ⟨rfl, rfl, hn⟩
    · simp only [splitAtFirstEagerLink, if_neg hn, Option.map_eq_some'] at h
      obtain ⟨⟨p2, f2, s2⟩, hrec, heq⟩ := h
      simp only [Prod.mk.injEq] at heq
      obtain ⟨h1, h2, h3⟩ := heq
      subst h1; subst h2; subst h3
      obtain ⟨hl, hp, hf⟩ := ih p2 hrec
      refine ⟨by rw [hl]; rfl, ?_, hf⟩
      simp [List.filter_cons, hn, hp]

/-- When no direct body eager import remains, the unhidden body filter is
empty. -/
theorem removeFirstBodyEager_none (body : List BodyItem)
    (h : removeFirstBodyEager body = none) :
    body.filter isUnhiddenBodyEager = [] := by
  induction body with
  | nil => rfl
  | cons item rest ih =>
    cases item with
    | node n =>
      by_cases hn : isEagerImport n = true
      · simp [removeFirstBodyEager, hn] at h
      · simp only [removeFirstBodyEager, if_neg hn, Option.map_eq_none'] at h
        simp [List.filter_cons, isUnhiddenBodyEager, hn, ih h]
    | hiddenDiv cs =>
      simp only [removeFirstBodyEager, Option.map_eq_none'] at h
      simp [List.filter_cons, isUnhiddenBodyEager, ih h]

/-- Removing the first direct body eager import decrements the unhidden body
filter length by one. -/
theorem removeFirstBodyEager_some (body b2 : List BodyItem) (n : HtmlNode)
    (h : removeFirstBodyEager body = some (b2, n)) :
    (b2.filter isUnhiddenBodyEager).length + 1 =
      (body.filter isUnhiddenBodyEager).length := by
  induction body generalizing b2 n with
  | nil => simp [removeFirstBodyEager] at h
  | cons item rest ih =>
    cases item with
    | node m =>
      by_cases hm : isEagerImport m = true
      · simp only [removeFirstBodyEager, if_pos hm, Option.some.injEq,
          Prod.mk.injEq] at h
        obtain ⟨h1, -⟩ := h
        subst h1
        simp [List.filter_cons, isUnhiddenBodyEager, hm]
      · simp only [removeFirstBodyEager, if_neg hm, Option.map_eq_some'] at h
        obtain ⟨⟨b3, m3⟩, hrec, heq⟩ := h
        simp only [Prod.mk.injEq] at heq
        obtain ⟨h1, -⟩ := heq
        subst h1
        simp [List.filter_cons, isUnhiddenBodyEager, hm, ih b3 m3 hrec]
    | hiddenDiv cs =>
      simp only [removeFirstBodyEager, Option.map_eq_some'] at h
      obtain ⟨⟨b3, m3⟩, hrec, heq⟩ := h
      simp only [Prod.mk.injEq] at heq
      obtain ⟨h1, -⟩ := heq
      subst h1
      simp [List.filter_cons, isUnhiddenBodyEager, ih b3 m3 hrec]

/-- When there is nothing left to move, no eager import sits outside the
hidden container. -/
theorem removeFirstUnhiddenEager_none (d : HtmlDoc)
    (h : removeFirstUnhiddenEager d = none) : countUnhiddenEager d = 0 := by
  unfold removeFirstUnhiddenEager at h
  cases hs : splitAtFirstEagerLink d.head with
  | some pfs => simp [hs] at h
  | none =>
    rw [hs] at h
    simp only [Option.map_eq_none'] at h
    simp [countUnhiddenEager, splitAtFirstEagerLink_none d.head hs,
      removeFirstBodyEager_none d.body h]

/-- Removing the first unhidden eager import decrements the count by one. -/
theorem removeFirstUnhiddenEager_some (d d2 : HtmlDoc) (n : HtmlNode)
    (h : removeFirstUnhiddenEager d = some (d2, n)) :
    countUnhiddenEager d2 + 1 = countUnhiddenEager d := by
  unfold removeFirstUnhiddenEager at h
  cases hs : splitAtFirstEagerLink d.head with
  | some pfs =>
    obtain ⟨pre, first, post⟩ := pfs
    rw [hs] at h
    simp only [Option.some.injEq, Prod.mk.injEq] at h
    obtain ⟨h1, -⟩ := h
    obtain ⟨hl, hp, hf⟩ := splitAtFirstEagerLink_some d.head pre first post hs
    subst h1
    simp only [countUnhiddenEager, hl]
    simp [List.filter_append, List.filter_cons, hp, hf]
    omega
  | none =>
    rw [hs] at h
    simp only [Option.map_eq_some'] at h
    obtain ⟨⟨b3, m3⟩, hrec, heq⟩ := h
    simp only [Prod.mk.injEq] at heq
    obtain ⟨h1, -⟩ := heq
    subst h1
    simp only [countUnhiddenEager]
    have := removeFirstBodyEager_some d.body b3 m3 hrec
    omega

/-- After enough iterations the moving loop leaves no eager import outside
the hidden container. -/
theorem moveUnhiddenLoop_count (fuel : Nat) :
    ∀ d : HtmlDoc, countUnhiddenEager d ≤ fuel →
      countUnhiddenEager (moveUnhiddenLoop fuel d) = 0 := by
  induction fuel with
  | zero =>
    intro d hd
    simpa [moveUnhiddenLoop] using Nat.le_zero.mp hd
  | succ n ih =>
    intro d hd
    unfold moveUnhiddenLoop
    cases hr : removeFirstUnhiddenEager d with
    | none => exact removeFirstUnhiddenEager_none d hr
    | some dn =>
      obtain ⟨d2, m⟩ := dn
      have hdec := removeFirstUnhiddenEager_some d d2 m hr
      refine ih _ ?_
      rw [(appendToHiddenDiv_count (findOrCreateHiddenDiv d2) m).2,
        (findOrCreateHiddenDiv_count d2).2]
      omega

/-- The second normalization pass leaves every eager import inside the
hidden container. -/
theorem moveUnhidden_count (d : HtmlDoc) :
    countUnhiddenEager (moveUnhiddenHtmlImportsIntoHiddenDiv d) = 0 :=
  moveUnhiddenLoop_count (countUnhiddenEager d) d (Nat.le_refl _)

/-- C8: `_prepareBundleDocument` anchors its result at the bundle url; when
the bundle url is one of the member files, that file is parsed and both
structural normalization passes run on it (leaving every eager import inside
the hidden container and none in the head), and otherwise the result is the
synthesized empty document with no normalization applied. -/
theorem prepare_bundle_document_base_selection (parse : String → HtmlDoc)
    (b : DocBundle) :
    (prepareBundleDocument parse b).1 = b.url
  ∧ (prepareBundleDocument parse b).2 =
      (if b.bundle.files.contains b.url then
        moveUnhiddenHtmlImportsIntoHiddenDiv
          (moveOrderedImperativesFromHeadIntoHiddenDiv (parse b.url))
       else emptyHtmlDoc)
  ∧ countUnhiddenEager (prepareBundleDocument parse b).2 = 0
  ∧ (prepareBundleDocument parse b).2.head.filter isEagerImport = [] := by
  have hsel : (prepareBundleDocument parse b).1 = b.url ∧
      (prepareBundleDocument parse b).2 =
        (if b.bundle.files.contains b.url then
          moveUnhiddenHtmlImportsIntoHiddenDiv
            (moveOrderedImperativesFromHeadIntoHiddenDiv (parse b.url))
         else emptyHtmlDoc) := by
    by_cases hc : b.bundle.files.contains b.url = true
    · have hc2 : b.url ∈ b.bundle.files := by simpa using hc
      simp [prepareBundleDocument, hc, hc2]
    · have hc2 : b.url ∉ b.bundle.files := by simpa using hc
      simp [prepareBundleDocument, hc, hc2]
  have hcount : countUnhiddenEager (prepareBundleDocument parse b).2 = 0 := by
    rw [hsel.2]
    by_cases hc : b.bundle.files.contains b.url = true
    · rw [if_pos hc]
      exact moveUnhidden_count _
    · rw [if_neg hc]
      rfl
  refine ⟨hsel.1, hsel.2, hcount, ?_⟩
  have : ((prepareBundleDocument parse b).2.head.filter isEagerImport).length = 0 := by
    have := hcount
    unfold countUnhiddenEager at this
    omega
  exact List.length_eq_zero.mp this

/-- C1: contrary to the claim's fallback clause, when no anchor exists the
injected import link is NOT appended at the end of the hidden container: the
code appends it to the container's parent (`dom5.append(hiddenDiv.parentNode,
newHtmlImport)`, bundler.js line 302), so the link lands at the end of the
body, outside and after the freshly created empty container.  Concrete run:
the synthetic bundle shared_bundle_1.html with the single member a.html,
injected into the empty base document with no existing imports. -/
theorem injected_link_lands_outside_container :
    injectHtmlImportsForBundle (fun _ u => u) (fun _ => [])
      ⟨"shared_bundle_1.html", ⟨["a.html"], []⟩⟩ ⟨[], []⟩
      = ⟨[], [BodyItem.hiddenDiv [],
              BodyItem.node (HtmlNode.link "a.html" false)]⟩ := by
  rfl

end PolymerBundler
